import Mathlib

/-!
Structural comparison engine: dispatch and tag resolution.

A shallow embedding of `cli/cmp/compare.go` (package `cmp`).

* Go's `reflect.Kind` is the enumeration `Kind`, in the order of the Go
  standard library.
* A `reflect.Value` is a finite tree `Value`; the zero `reflect.Value` is
  `Value.invalid`.  A nil pointer or nil interface is `Value.pointer .invalid`
  resp. `Value.iface .invalid`, because `Elem()` of a nil pointer/interface is
  the zero `reflect.Value`.
* Go's `interface{}` is `Any := Option Value`; `none` is the nil interface.
* The `*DiffNode` that the comparators mutate is passed and returned
  explicitly.
* The eight comparator methods (`cmpBool`, ..., `cmpInterface`) live in other
  files of the package; they are a parameter (`Methods`) of everything that
  calls them.  `getCompareFunc` returns the *name* of the selected method
  (`CmpFunc`), a nil `CompareFunc` is `none`.
-/

namespace Cmp

/-! ## reflect: kinds and values -/

/-- The kinds of `reflect.Kind`, in declaration order. -/
inductive Kind
  | Invalid | Bool | Int | Int8 | Int16 | Int32 | Int64
  | Uint | Uint8 | Uint16 | Uint32 | Uint64 | Uintptr
  | Float32 | Float64 | Complex64 | Complex128
  | Array | Chan | Func | Interface | Map | Pointer | Slice
  | String | Struct | UnsafePointer
  deriving DecidableEq, Repr

/-- A struct tag in its conventional form: the list of `key:"value"` pairs in
the order written. -/
abbrev StructTag := List (String × String)

/-- The method `StructTag.Get`: the value of the first pair with the given key,
the empty string when there is none. -/
def StructTag.Get (tag : StructTag) (key : String) : String :=
  match tag.find? (fun kv => kv.1 == key) with
  | some kv => kv.2
  | none => ""

/-- The part of `reflect.StructField` the package reads: the declared name and
the tag. -/
structure StructField where
  Name : String
  Tag : StructTag

/-- A `reflect.Value`.  Values of the kinds the package never looks into carry
no payload (`other`). -/
inductive Value
  | invalid
  | bool (b : Bool)
  | int (i : Int)
  | string (s : String)
  | struct (fields : List (StructField × Value))
  | slice (elems : List Value)
  | map (entries : List (Value × Value))
  | pointer (elem : Value)
  | iface (elem : Value)
  | other (k : Kind)

/-- Go's `interface{}`: `none` is nil. -/
abbrev Any := Option Value

/-- The method `reflect.Value.Kind`. -/
def Value.Kind : Value → Cmp.Kind
  | .invalid => .Invalid
  | .bool _ => .Bool
  | .int _ => .Int
  | .string _ => .String
  | .struct _ => .Struct
  | .slice _ => .Slice
  | .map _ => .Map
  | .pointer _ => .Pointer
  | .iface _ => .Interface
  | .other k => k

/-- The function `reflect.ValueOf`: the zero value for nil, the held value
otherwise. -/
def ValueOf : Any → Value
  | none => .invalid
  | some v => v

/-- The method `reflect.Value.Len` on the values of this model; `none` where
reflect panics (and for the payload-free kinds). -/
def Value.Len : Value → Option Nat
  | .slice xs => some xs.length
  | .string s => some s.utf8ByteSize
  | .map es => some es.length
  | _ => none

/-- The method `reflect.Value.Index`; `none` where reflect panics (wrong kind
or index out of range). -/
def Value.Index : Value → Nat → Option Value
  | .slice xs, i => xs.get? i
  | .string s, i => if i < s.utf8ByteSize then some (.other .Uint8) else none
  | _, _ => none

/-! ## The functions of `strings` and `unicode` that the package calls

A Go string is modelled by `String` (a valid UTF-8 text); the separator is
always the one-byte text `","`, passed as the character. -/

/-- The function `unicode.IsSpace`: the code points with the White_Space
property. -/
def unicode.IsSpace (r : Char) : Bool :=
  let n := r.toNat
  (0x09 ≤ n && n ≤ 0x0D) || n == 0x20 || n == 0x85 || n == 0xA0 || n == 0x1680 ||
    (0x2000 ≤ n && n ≤ 0x200A) || n == 0x2028 || n == 0x2029 || n == 0x202F ||
    n == 0x205F || n == 0x3000

/-- The lower-case column of the case table of `unicode` outside ASCII: the
simple lower-case mappings of the Unicode character database (version 14.0),
from which Go generates its table.  An entry `(lo, hi, stride, target)` maps the runes `lo`,
`lo + stride`, ... up to `hi` to `target`, `target + stride`, ... -/
def unicode.lowerRanges : List (Nat × Nat × Nat × Nat) :=
  [(0x00C0, 0x00D6, 1, 0x00E0), (0x00D8, 0x00DE, 1, 0x00F8), (0x0100, 0x012E, 2, 0x0101),
   (0x0130, 0x0130, 1, 0x0069), (0x0132, 0x0136, 2, 0x0133), (0x0139, 0x0147, 2, 0x013A),
   (0x014A, 0x0176, 2, 0x014B), (0x0178, 0x0178, 1, 0x00FF), (0x0179, 0x017D, 2, 0x017A),
   (0x0181, 0x0181, 1, 0x0253), (0x0182, 0x0184, 2, 0x0183), (0x0186, 0x0186, 1, 0x0254),
   (0x0187, 0x0187, 1, 0x0188), (0x0189, 0x018A, 1, 0x0256), (0x018B, 0x018B, 1, 0x018C),
   (0x018E, 0x018E, 1, 0x01DD), (0x018F, 0x018F, 1, 0x0259), (0x0190, 0x0190, 1, 0x025B),
   (0x0191, 0x0191, 1, 0x0192), (0x0193, 0x0193, 1, 0x0260), (0x0194, 0x0194, 1, 0x0263),
   (0x0196, 0x0196, 1, 0x0269), (0x0197, 0x0197, 1, 0x0268), (0x0198, 0x0198, 1, 0x0199),
   (0x019C, 0x019C, 1, 0x026F), (0x019D, 0x019D, 1, 0x0272), (0x019F, 0x019F, 1, 0x0275),
   (0x01A0, 0x01A4, 2, 0x01A1), (0x01A6, 0x01A6, 1, 0x0280), (0x01A7, 0x01A7, 1, 0x01A8),
   (0x01A9, 0x01A9, 1, 0x0283), (0x01AC, 0x01AC, 1, 0x01AD), (0x01AE, 0x01AE, 1, 0x0288),
   (0x01AF, 0x01AF, 1, 0x01B0), (0x01B1, 0x01B2, 1, 0x028A), (0x01B3, 0x01B5, 2, 0x01B4),
   (0x01B7, 0x01B7, 1, 0x0292), (0x01B8, 0x01B8, 1, 0x01B9), (0x01BC, 0x01BC, 1, 0x01BD),
   (0x01C4, 0x01C4, 1, 0x01C6), (0x01C5, 0x01C5, 1, 0x01C6), (0x01C7, 0x01C7, 1, 0x01C9),
   (0x01C8, 0x01C8, 1, 0x01C9), (0x01CA, 0x01CA, 1, 0x01CC), (0x01CB, 0x01DB, 2, 0x01CC),
   (0x01DE, 0x01EE, 2, 0x01DF), (0x01F1, 0x01F1, 1, 0x01F3), (0x01F2, 0x01F4, 2, 0x01F3),
   (0x01F6, 0x01F6, 1, 0x0195), (0x01F7, 0x01F7, 1, 0x01BF), (0x01F8, 0x021E, 2, 0x01F9),
   (0x0220, 0x0220, 1, 0x019E), (0x0222, 0x0232, 2, 0x0223), (0x023A, 0x023A, 1, 0x2C65),
   (0x023B, 0x023B, 1, 0x023C), (0x023D, 0x023D, 1, 0x019A), (0x023E, 0x023E, 1, 0x2C66),
   (0x0241, 0x0241, 1, 0x0242), (0x0243, 0x0243, 1, 0x0180), (0x0244, 0x0244, 1, 0x0289),
   (0x0245, 0x0245, 1, 0x028C), (0x0246, 0x024E, 2, 0x0247), (0x0370, 0x0372, 2, 0x0371),
   (0x0376, 0x0376, 1, 0x0377), (0x037F, 0x037F, 1, 0x03F3), (0x0386, 0x0386, 1, 0x03AC),
   (0x0388, 0x038A, 1, 0x03AD), (0x038C, 0x038C, 1, 0x03CC), (0x038E, 0x038F, 1, 0x03CD),
   (0x0391, 0x03A1, 1, 0x03B1), (0x03A3, 0x03AB, 1, 0x03C3), (0x03CF, 0x03CF, 1, 0x03D7),
   (0x03D8, 0x03EE, 2, 0x03D9), (0x03F4, 0x03F4, 1, 0x03B8), (0x03F7, 0x03F7, 1, 0x03F8),
   (0x03F9, 0x03F9, 1, 0x03F2), (0x03FA, 0x03FA, 1, 0x03FB), (0x03FD, 0x03FF, 1, 0x037B),
   (0x0400, 0x040F, 1, 0x0450), (0x0410, 0x042F, 1, 0x0430), (0x0460, 0x0480, 2, 0x0461),
   (0x048A, 0x04BE, 2, 0x048B), (0x04C0, 0x04C0, 1, 0x04CF), (0x04C1, 0x04CD, 2, 0x04C2),
   (0x04D0, 0x052E, 2, 0x04D1), (0x0531, 0x0556, 1, 0x0561), (0x10A0, 0x10C5, 1, 0x2D00),
   (0x10C7, 0x10C7, 1, 0x2D27), (0x10CD, 0x10CD, 1, 0x2D2D), (0x13A0, 0x13EF, 1, 0xAB70),
   (0x13F0, 0x13F5, 1, 0x13F8), (0x1C90, 0x1CBA, 1, 0x10D0), (0x1CBD, 0x1CBF, 1, 0x10FD),
   (0x1E00, 0x1E94, 2, 0x1E01), (0x1E9E, 0x1E9E, 1, 0x00DF), (0x1EA0, 0x1EFE, 2, 0x1EA1),
   (0x1F08, 0x1F0F, 1, 0x1F00), (0x1F18, 0x1F1D, 1, 0x1F10), (0x1F28, 0x1F2F, 1, 0x1F20),
   (0x1F38, 0x1F3F, 1, 0x1F30), (0x1F48, 0x1F4D, 1, 0x1F40), (0x1F59, 0x1F5F, 2, 0x1F51),
   (0x1F68, 0x1F6F, 1, 0x1F60), (0x1F88, 0x1F8F, 1, 0x1F80), (0x1F98, 0x1F9F, 1, 0x1F90),
   (0x1FA8, 0x1FAF, 1, 0x1FA0), (0x1FB8, 0x1FB9, 1, 0x1FB0), (0x1FBA, 0x1FBB, 1, 0x1F70),
   (0x1FBC, 0x1FBC, 1, 0x1FB3), (0x1FC8, 0x1FCB, 1, 0x1F72), (0x1FCC, 0x1FCC, 1, 0x1FC3),
   (0x1FD8, 0x1FD9, 1, 0x1FD0), (0x1FDA, 0x1FDB, 1, 0x1F76), (0x1FE8, 0x1FE9, 1, 0x1FE0),
   (0x1FEA, 0x1FEB, 1, 0x1F7A), (0x1FEC, 0x1FEC, 1, 0x1FE5), (0x1FF8, 0x1FF9, 1, 0x1F78),
   (0x1FFA, 0x1FFB, 1, 0x1F7C), (0x1FFC, 0x1FFC, 1, 0x1FF3), (0x2126, 0x2126, 1, 0x03C9),
   (0x212A, 0x212A, 1, 0x006B), (0x212B, 0x212B, 1, 0x00E5), (0x2132, 0x2132, 1, 0x214E),
   (0x2160, 0x216F, 1, 0x2170), (0x2183, 0x2183, 1, 0x2184), (0x24B6, 0x24CF, 1, 0x24D0),
   (0x2C00, 0x2C2F, 1, 0x2C30), (0x2C60, 0x2C60, 1, 0x2C61), (0x2C62, 0x2C62, 1, 0x026B),
   (0x2C63, 0x2C63, 1, 0x1D7D), (0x2C64, 0x2C64, 1, 0x027D), (0x2C67, 0x2C6B, 2, 0x2C68),
   (0x2C6D, 0x2C6D, 1, 0x0251), (0x2C6E, 0x2C6E, 1, 0x0271), (0x2C6F, 0x2C6F, 1, 0x0250),
   (0x2C70, 0x2C70, 1, 0x0252), (0x2C72, 0x2C72, 1, 0x2C73), (0x2C75, 0x2C75, 1, 0x2C76),
   (0x2C7E, 0x2C7F, 1, 0x023F), (0x2C80, 0x2CE2, 2, 0x2C81), (0x2CEB, 0x2CED, 2, 0x2CEC),
   (0x2CF2, 0x2CF2, 1, 0x2CF3), (0xA640, 0xA66C, 2, 0xA641), (0xA680, 0xA69A, 2, 0xA681),
   (0xA722, 0xA72E, 2, 0xA723), (0xA732, 0xA76E, 2, 0xA733), (0xA779, 0xA77B, 2, 0xA77A),
   (0xA77D, 0xA77D, 1, 0x1D79), (0xA77E, 0xA786, 2, 0xA77F), (0xA78B, 0xA78B, 1, 0xA78C),
   (0xA78D, 0xA78D, 1, 0x0265), (0xA790, 0xA792, 2, 0xA791), (0xA796, 0xA7A8, 2, 0xA797),
   (0xA7AA, 0xA7AA, 1, 0x0266), (0xA7AB, 0xA7AB, 1, 0x025C), (0xA7AC, 0xA7AC, 1, 0x0261),
   (0xA7AD, 0xA7AD, 1, 0x026C), (0xA7AE, 0xA7AE, 1, 0x026A), (0xA7B0, 0xA7B0, 1, 0x029E),
   (0xA7B1, 0xA7B1, 1, 0x0287), (0xA7B2, 0xA7B2, 1, 0x029D), (0xA7B3, 0xA7B3, 1, 0xAB53),
   (0xA7B4, 0xA7C2, 2, 0xA7B5), (0xA7C4, 0xA7C4, 1, 0xA794), (0xA7C5, 0xA7C5, 1, 0x0282),
   (0xA7C6, 0xA7C6, 1, 0x1D8E), (0xA7C7, 0xA7C9, 2, 0xA7C8), (0xA7D0, 0xA7D0, 1, 0xA7D1),
   (0xA7D6, 0xA7D8, 2, 0xA7D7), (0xA7F5, 0xA7F5, 1, 0xA7F6), (0xFF21, 0xFF3A, 1, 0xFF41),
   (0x10400, 0x10427, 1, 0x10428), (0x104B0, 0x104D3, 1, 0x104D8), (0x10570, 0x1057A, 1, 0x10597),
   (0x1057C, 0x1058A, 1, 0x105A3), (0x1058C, 0x10592, 1, 0x105B3), (0x10594, 0x10595, 1, 0x105BB),
   (0x10C80, 0x10CB2, 1, 0x10CC0), (0x118A0, 0x118BF, 1, 0x118C0), (0x16E40, 0x16E5F, 1, 0x16E60),
   (0x1E900, 0x1E921, 1, 0x1E922)]

/-- The function `unicode.ToLower`: the ASCII letters directly, every other
rune through the case table; a rune without a lower-case mapping is left as it
is. -/
def unicode.ToLower (r : Char) : Char :=
  let n := r.toNat
  if n ≤ 0x7F then
    if 'A' ≤ r ∧ r ≤ 'Z' then Char.ofNat (n + 32) else r
  else
    match unicode.lowerRanges.find?
        (fun e => e.1 ≤ n && n ≤ e.2.1 && (n - e.1) % e.2.2.1 == 0) with
    | some e => Char.ofNat (e.2.2.2 + (n - e.1))
    | none => r

/-- The function `strings.ToLower`: every rune is mapped by `unicode.ToLower`. -/
def strings.ToLower (s : String) : String :=
  String.mk (s.data.map unicode.ToLower)

/-- The function `strings.TrimSpace`: leading and trailing white space is
removed. -/
def strings.TrimSpace (s : String) : String :=
  String.mk ((s.data.dropWhile unicode.IsSpace).reverse.dropWhile unicode.IsSpace).reverse

/-- The pieces of a text between the occurrences of `sep`; a text without
`sep` is its only piece, the empty text included. -/
def strings.splitRunes (sep : Char) : List Char → List (List Char)
  | [] => [[]]
  | r :: rs =>
    if r = sep then [] :: strings.splitRunes sep rs
    else
      match strings.splitRunes sep rs with
      | [] => [[r]]
      | piece :: pieces => (r :: piece) :: pieces

/-- The function `strings.Split` for a one-character separator. -/
def strings.Split (s : String) (sep : Char) : List String :=
  (strings.splitRunes sep s.data).map String.mk

/-- At most `n` pieces, the last one being the unsplit rest of the text. -/
def strings.splitNRunes (sep : Char) : Nat → List Char → List (List Char)
  | 0, _ => []
  | 1, s => [s]
  | n + 2, s =>
    match s.span (fun r => r != sep) with
    | (piece, []) => [piece]
    | (piece, _ :: rest) => piece :: strings.splitNRunes sep (n + 1) rest

/-- The function `strings.SplitN` for a one-character separator and `n ≥ 0`. -/
def strings.SplitN (s : String) (sep : Char) (n : Nat) : List String :=
  (strings.splitNRunes sep n s.data).map String.mk

/-- The builtin `len` of a string: its length in bytes. -/
def len (s : String) : Nat := s.utf8ByteSize

/-! ## The package's own types -/

/-- The constants `ROOT_KEY` and `TAG_OPTION_ID`. -/
def ROOT_KEY : String := "root"

def TAG_OPTION_ID : String := "id"

/-- The variable `fieldNameTags`. -/
def fieldNameTags : List String := ["json", "yaml"]

/-- The configuration struct `Comparator`. -/
structure Comparator where
  TagName : String
  RespectSliceOrder : Bool
  SkipPrivateFields : Bool
  deriving DecidableEq, Repr

/-- The constructor `NewComparator`: only `TagName` is set, the two flags keep
Go's zero value `false`. -/
def NewComparator : Comparator :=
  { TagName := "cmp", RespectSliceOrder := false, SkipPrivateFields := false }

/-- The errors of the package.  `NewTypeMismatchError` is the only constructor
the source calls. -/
inductive CmpError
  | TypeMismatch (a b : Kind)
  deriving DecidableEq, Repr

/-- The constructor `NewTypeMismatchError`. -/
def NewTypeMismatchError (a b : Kind) : CmpError := .TypeMismatch a b

/-- The node status of the diff tree. -/
inductive Status
  | Equal | Created | Deleted | Modified
  deriving DecidableEq, Repr

/-- Modelled from the spec: the type `DiffNode` is declared outside
`compare.go`.  The spec (section 3) gives a node a key, a status, optional old
and new leaf values and keyed children. -/
inductive DiffNode
  | mk (key : String) (status : Status) (oldValue newValue : Any)
      (children : List DiffNode)

def DiffNode.key : DiffNode → String
  | .mk k _ _ _ _ => k

def DiffNode.status : DiffNode → Status
  | .mk _ s _ _ _ => s

def DiffNode.children : DiffNode → List DiffNode
  | .mk _ _ _ _ cs => cs

/-- Modelled from the spec: `NewNode` is defined outside `compare.go`.  The
spec says the root node of two absent inputs has status Equal and no
children; that node is the untouched result of `NewNode`. -/
def NewNode : DiffNode := .mk "" .Equal none none []

/-- Modelled from the spec: `getChild` is defined outside `compare.go`.
Children are keyed, at most one per key; the child with the given key, nil
(`none`) when there is none. -/
def DiffNode.getChild (n : DiffNode) (key : String) : Option DiffNode :=
  n.children.find? (fun ch => ch.key == key)

/-- The type `CompareFunc`, with the mutated parent node returned next to the
error (`none` is a nil error). -/
abbrev CompareFunc := DiffNode → Any → Value → Value → DiffNode × Option CmpError

/-- The names of the eight comparator methods of `Comparator`. -/
inductive CmpFunc
  | cmpBool | cmpInt | cmpString | cmpStruct | cmpSlice | cmpMap
  | cmpPointer | cmpInterface
  deriving DecidableEq, Repr

/-- The bodies of the comparator methods, which are not part of `compare.go`:
`call f c` is the method value `c.f`. -/
structure Methods where
  call : CmpFunc → Comparator → CompareFunc

/-! ## Helpers of the package defined outside `compare.go` -/

/-- Modelled from the spec: `getDeepValue` is defined outside `compare.go`.  It
follows a chain of indirections and dynamic wrappers to the first value that
is neither a pointer nor an interface. -/
def getDeepValue : Value → Value
  | .pointer e => getDeepValue e
  | .iface e => getDeepValue e
  | v => v

/-- Modelled from the spec: `exportInterface` is defined outside `compare.go`.
It hands out the value of a field, readable or not, as an `interface{}`; the
result is nil only for a nil interface (and for the zero value). -/
def exportInterface : Value → Any
  | .invalid => none
  | .iface .invalid => none
  | .iface e => some e
  | v => some v

/-- The fields of a struct value with their values, in declaration order
(`Type().Field(i)` and `Field(i)` for `i < NumField()`). -/
def Value.fields : Value → List (StructField × Value)
  | .struct fs => fs
  | _ => []

/-! ## compare.go -/

/-- The loop of `tagName` over the tag keys. -/
def tagName.loop (field : StructField) : List String → String
  | [] => ""
  | tag :: tags =>
    let tName := (strings.SplitN (field.Tag.Get tag) ',' 2).headD ""
    if len tName > 0 then tName else tagName.loop field tags

/-- The function `tagName`. -/
def tagName (tagName : String) (field : StructField) : String :=
  let tags := [tagName] ++ fieldNameTags
  Cmp.tagName.loop field tags

/-- The function `hasTagOption`. -/
def hasTagOption (tagName : String) (field : StructField) (option : String) : Bool :=
  let tag := field.Tag.Get tagName
  let options := strings.Split tag ','
  if options.length < 2 then false
  else (options.drop 1).any (fun o => strings.ToLower (strings.TrimSpace o) == option)

/-- The loop of `tagOptionId` over the fields. -/
def tagOptionId.loop (tagName : String) : List (StructField × Value) → Any
  | [] => none
  | (field, value) :: rest =>
    if hasTagOption tagName field TAG_OPTION_ID then exportInterface value
    else tagOptionId.loop tagName rest

/-- The function `tagOptionId`. -/
def tagOptionId (tagName : String) (v : Value) : Any :=
  if v.Kind ≠ .Struct then none
  else tagOptionId.loop tagName v.fields

/-- The method `Comparator.areComparativeById`; `none` where `Len` or `Index`
panics. -/
def Comparator.areComparativeById (c : Comparator) (a b : Value) : Option Bool := do
  if (← a.Len) > 0 then
    let ai ← a.Index 0
    let av := getDeepValue ai
    if av.Kind = .Struct then
      if (tagOptionId c.TagName av).isSome then
        return true
  if (← b.Len) > 0 then
    let bi ← b.Index 0
    let bv := getDeepValue bi
    if bv.Kind = .Struct then
      if (tagOptionId c.TagName bv).isSome then
        return true
  return false

/-- The function `areOfKind`: one pass over `kinds`, setting `isA` and `isB`. -/
def areOfKind (a b : Value) (kinds : List Kind) : Bool :=
  let r := kinds.foldl
    (fun (acc : Bool × Bool) k =>
      (if a.Kind = k then true else acc.1, if b.Kind = k then true else acc.2))
    (false, false)
  r.1 && r.2

/-- The method `Comparator.getCompareFunc`: the first case of the switch whose
condition holds. -/
def Comparator.getCompareFunc (_c : Comparator) (a b : Value) : Option CmpFunc :=
  if areOfKind a b [.Invalid, .Bool] then some .cmpBool
  else if areOfKind a b [.Invalid, .Int] then some .cmpInt
  else if areOfKind a b [.Invalid, .String] then some .cmpString
  else if areOfKind a b [.Invalid, .Struct] then some .cmpStruct
  else if areOfKind a b [.Invalid, .Slice] then some .cmpSlice
  else if areOfKind a b [.Invalid, .Map] then some .cmpMap
  else if areOfKind a b [.Invalid, .Pointer] then some .cmpPointer
  else if areOfKind a b [.Invalid, .Interface] then some .cmpInterface
  else none

/-- The method `Comparator.compare`. -/
def Comparator.compare (m : Methods) (c : Comparator) (parent : DiffNode) (key : Any)
    (a b : Value) : DiffNode × Option CmpError :=
  match c.getCompareFunc a b with
  | none => (parent, some (NewTypeMismatchError a.Kind b.Kind))
  | some cmpFunc => m.call cmpFunc c parent key a b

/-- The method `Comparator.Compare`. -/
def Comparator.Compare (m : Methods) (c : Comparator) (a b : Any) :
    Option DiffNode × Option CmpError :=
  let diff := NewNode
  if a.isNone && b.isNone then (some diff, none)
  else
    let r := c.compare m diff (some (.string ROOT_KEY)) (ValueOf a) (ValueOf b)
    (r.1.getChild ROOT_KEY, r.2)

/-- The package-level function `Compare`. -/
def Compare (m : Methods) (a b : Any) : Option DiffNode × Option CmpError :=
  let c := NewComparator
  c.Compare m a b

/-! ## Vocabulary of the specification -/

/-- The eight kinds the dispatcher has a rule for. -/
def recognized (k : Kind) : Bool :=
  match k with
  | .Bool | .Int | .String | .Struct | .Slice | .Map | .Pointer | .Interface => true
  | _ => false

/-- The kind pairs for which the specification lets the walk fail: both kinds
recognized but different, or a kind that is neither absent nor recognized on
either side. -/
def dispatchFails (ka kb : Kind) : Prop :=
  (recognized ka = true ∧ recognized kb = true ∧ ka ≠ kb) ∨
    (ka ≠ .Invalid ∧ recognized ka = false) ∨ (kb ≠ .Invalid ∧ recognized kb = false)

instance (ka kb : Kind) : Decidable (dispatchFails ka kb) := by
  unfold dispatchFails; infer_instance

/-- The rules of the dispatcher as a table, in the order of the switch: the
kind of a rule and the comparator it selects. -/
def dispatchRules : List (Kind × CmpFunc) :=
  [(.Bool, .cmpBool), (.Int, .cmpInt), (.String, .cmpString), (.Struct, .cmpStruct),
   (.Slice, .cmpSlice), (.Map, .cmpMap), (.Pointer, .cmpPointer),
   (.Interface, .cmpInterface)]

/-- A rule matches a pair of values when `areOfKind` holds for the absent kind
and the kind of the rule. -/
def ruleMatches (a b : Value) (rule : Kind × CmpFunc) : Bool :=
  areOfKind a b [.Invalid, rule.1]

/-- The dispatcher over an arbitrary ordering of rules: the comparator of the
first rule that matches. -/
def firstMatch (rules : List (Kind × CmpFunc)) (a b : Value) : Option CmpFunc :=
  (rules.find? (ruleMatches a b)).map (fun rule => rule.2)

/-- A table of comparators that do nothing and report no error. -/
def Methods.silent : Methods := { call := fun _ _ parent _ _ _ => (parent, none) }

/-- Modelled from the spec: the comparator methods are defined outside
`compare.go`.  By section 4.8 the comparator of dynamic values unwraps both
sides to the values they hold and dispatches again, and held values of
different kinds are a TypeMismatch, which by section 7 goes up to the caller
at once.  This table has that comparator for `cmpInterface`, the held values
being compared over `inner`; the other comparators are silent. -/
def Methods.unwrapping (inner : Methods) : Methods :=
  { call := fun f c parent key a b =>
      match f, a, b with
      | .cmpInterface, .iface x, .iface y => c.compare inner parent key x y
      | _, _, _ => (parent, none) }

/-- A field annotated `cmp:"x, İD "`: the option is written with the dotted
capital I (U+0130) and surrounded by blanks. -/
def sampleDottedIdField : StructField := { Name := "X", Tag := [("cmp", "x, İD ")] }

/-- Two texts are equal when compared case-insensitively: they have the same
lower-case form. -/
def equalIgnoreCase (x y : String) : Prop := strings.ToLower x = strings.ToLower y

instance (x y : String) : Decidable (equalIgnoreCase x y) := by
  unfold equalIgnoreCase; infer_instance

/-- The pieces written one after the other with `sep` between neighbours. -/
def joinRunes (sep : Char) : List (List Char) → List Char
  | [] => []
  | [piece] => piece
  | piece :: next :: pieces => piece ++ sep :: joinRunes sep (next :: pieces)

/-- The annotation text `name,option,...,option`: a name followed by its
comma-separated option segments. -/
def tagText (name : String) (options : List String) : String :=
  String.mk (joinRunes ',' (name.data :: options.map String.data))

/-- The text before the first comma of an annotation (all of it when it has no
comma). -/
def textBeforeComma (s : String) : String :=
  String.mk (s.data.takeWhile (fun r => r != ','))

/-- A field annotated `cmp:"x,id"`. -/
def sampleIdField : StructField := { Name := "X", Tag := [("cmp", "x,id")] }

/-- A field annotated `cmp:",id" yaml:"y,z"`. -/
def sampleUnnamedField : StructField := { Name := "Y", Tag := [("cmp", ",id"), ("yaml", "y,z")] }

/-- For a sequence: its first element, resolved through indirection, is a
struct for which `tagOptionId` finds an identity. -/
def firstCarriesId (c : Comparator) (xs : List Value) : Bool :=
  match xs with
  | [] => false
  | x :: _ =>
    decide ((getDeepValue x).Kind = .Struct) && (tagOptionId c.TagName (getDeepValue x)).isSome

/-- A field annotated `cmp:"id"`: a name and no option list. -/
def sampleNameOnlyField : StructField := { Name := "Id", Tag := [("cmp", "id")] }

/-- A field annotated `json:"x,id"` and nothing under the key `cmp`. -/
def sampleJsonIdField : StructField := { Name := "X", Tag := [("json", "x,id")] }

/-- The annotations a tag holds under one key, in the order written. -/
def annotationsUnder (tag : StructTag) (key : String) : StructTag :=
  tag.filter (fun kv => kv.1 == key)

/-! ## Dispatch -/

theorem areOfKind_pair (a b : Value) (k : Kind) :
    areOfKind a b [.Invalid, k] =
      (decide (a.Kind = .Invalid ∨ a.Kind = k) && decide (b.Kind = .Invalid ∨ b.Kind = k)) := by
  unfold areOfKind
  generalize a.Kind = ka
  generalize b.Kind = kb
  by_cases h1 : ka = .Invalid <;> by_cases h2 : ka = k <;>
    by_cases h3 : kb = .Invalid <;> by_cases h4 : kb = k <;> simp [h1, h2, h3, h4]

theorem getCompareFunc_none_iff (c : Comparator) (a b : Value) :
    c.getCompareFunc a b = none ↔ dispatchFails a.Kind b.Kind := by
  unfold Comparator.getCompareFunc
  simp only [areOfKind_pair]
  generalize a.Kind = ka
  generalize b.Kind = kb
  cases ka <;> cases kb <;> decide

/-- C1, as stated, fails: two interface values have the same recognized kind,
so the dispatch selects a comparator, and `compare` still returns a
TypeMismatch error: the one the interface comparator reports for the integer
and the text the two values hold. -/
theorem compare_nested_typeMismatch :
    (Comparator.compare (Methods.unwrapping Methods.silent) NewComparator NewNode none
        (.iface (.int 1)) (.iface (.string "x"))).2 = some (.TypeMismatch .Int .String) ∧
      ¬ dispatchFails (Value.Kind (.iface (.int 1))) (Value.Kind (.iface (.string "x"))) := by
  exact ⟨rfl, by decide⟩

/-- C1, amended: for every table of comparators, `compare` selects no
comparator exactly for the kind pairs that are recognized but different or
contain a kind that is neither absent nor recognized; there it returns the
TypeMismatch error of the two kinds and leaves the parent as it is; for every
other pair it returns what the selected comparator returns for
`(parent, key, a, b)`, an error of that comparator included. -/
theorem compare_by_dispatch (m : Methods) (c : Comparator) (parent : DiffNode) (key : Any)
    (a b : Value) :
    (c.getCompareFunc a b = none ↔ dispatchFails a.Kind b.Kind) ∧
    (dispatchFails a.Kind b.Kind →
      c.compare m parent key a b = (parent, some (NewTypeMismatchError a.Kind b.Kind))) ∧
    (¬ dispatchFails a.Kind b.Kind →
      ∃ f, c.getCompareFunc a b = some f ∧
        c.compare m parent key a b = m.call f c parent key a b) := by
  have hnone := getCompareFunc_none_iff c a b
  refine ⟨hnone, fun h => ?_, fun h => ?_⟩
  · simp [Comparator.compare, hnone.mpr h]
  · cases hsel : c.getCompareFunc a b with
    | none => exact absurd (hnone.mp hsel) h
    | some f => exact ⟨f, rfl, by simp [Comparator.compare, hsel]⟩

theorem getCompareFunc_of_kinds (c : Comparator) (a b : Value) (K : Kind) (f : CmpFunc)
    (hrule : (K, f) ∈ dispatchRules)
    (hk : (a.Kind = .Invalid ∧ b.Kind = K) ∨ (a.Kind = K ∧ b.Kind = .Invalid) ∨
      (a.Kind = K ∧ b.Kind = K)) :
    c.getCompareFunc a b = some f := by
  unfold Comparator.getCompareFunc
  simp only [areOfKind_pair]
  simp only [dispatchRules, List.mem_cons, Prod.mk.injEq, List.mem_singleton,
    List.not_mem_nil, or_false] at hrule
  rcases hrule with h | h | h | h | h | h | h | h <;> obtain ⟨rfl, rfl⟩ := h <;>
    rcases hk with ⟨h1, h2⟩ | ⟨h1, h2⟩ | ⟨h1, h2⟩ <;> simp [h1, h2]

/-- C2: for a rule's kind `K` with comparator `f`, the kind pairs (absent, K),
(K, absent) and (K, K) all select `f`, so `compare` hands the pair to `f` and
does not fail at dispatch. -/
theorem getCompareFunc_selects (c : Comparator) (a b : Value) (K : Kind) (f : CmpFunc)
    (hrule : (K, f) ∈ dispatchRules)
    (hk : (a.Kind = .Invalid ∧ b.Kind = K) ∨ (a.Kind = K ∧ b.Kind = .Invalid) ∨
      (a.Kind = K ∧ b.Kind = K)) :
    recognized K = true ∧ c.getCompareFunc a b = some f ∧
      ∀ (m : Methods) (parent : DiffNode) (key : Any),
        c.compare m parent key a b = m.call f c parent key a b := by
  have hsel := getCompareFunc_of_kinds c a b K f hrule hk
  refine ⟨?_, hsel, fun m parent key => by simp [Comparator.compare, hsel]⟩
  simp only [dispatchRules, List.mem_cons, Prod.mk.injEq, List.mem_singleton,
    List.not_mem_nil, or_false] at hrule
  rcases hrule with h | h | h | h | h | h | h | h <;> obtain ⟨rfl, rfl⟩ := h <;> rfl

theorem getCompareFunc_selects_witness :
    Comparator.getCompareFunc NewComparator .invalid (.slice [.int 1]) = some .cmpSlice :=
  (getCompareFunc_selects NewComparator .invalid (.slice [.int 1]) .Slice .cmpSlice
    (by decide) (Or.inl ⟨rfl, rfl⟩)).2.1

/-- Every recognized kind has a rule in the table, and only those have one. -/
theorem recognized_iff_rule (K : Kind) :
    recognized K = true ↔ ∃ f, (K, f) ∈ dispatchRules := by
  cases K <;> simp [recognized, dispatchRules]

/-- C5: for two non-nil inputs of recognized but different kinds, `Compare`
(method and package-level function) returns as error the TypeMismatch built
from the kind of `a` and the kind of `b` in that order, whatever the
comparators are. -/
theorem Compare_typeMismatch (m : Methods) (c : Comparator) (va vb : Value)
    (ha : recognized va.Kind = true) (hb : recognized vb.Kind = true)
    (hne : va.Kind ≠ vb.Kind) :
    (c.Compare m (some va) (some vb)).2 = some (NewTypeMismatchError va.Kind vb.Kind) ∧
    (Compare m (some va) (some vb)).2 = some (NewTypeMismatchError va.Kind vb.Kind) ∧
    ∀ m2 : Methods, c.Compare m2 (some va) (some vb) = c.Compare m (some va) (some vb) := by
  have hfail : ∀ c2 : Comparator, c2.getCompareFunc va vb = none := fun c2 =>
    (getCompareFunc_none_iff c2 va vb).mpr (Or.inl ⟨ha, hb, hne⟩)
  refine ⟨?_, ?_, fun m2 => ?_⟩ <;>
    simp [Compare, Comparator.Compare, Comparator.compare, ValueOf, hfail]

theorem Compare_typeMismatch_witness :
    (Comparator.Compare Methods.silent NewComparator (some (.int 1)) (some (.string "x"))).2 =
      some (NewTypeMismatchError .Int .String) :=
  (Compare_typeMismatch Methods.silent NewComparator (.int 1) (.string "x")
    rfl rfl (by decide)).1

/-- C6: `Compare` of two nil inputs returns no error and the node made by
`NewNode` as it is, for every configuration and whatever the comparators are;
that node has status Equal and no children. -/
theorem Compare_nil_nil (m : Methods) (c : Comparator) :
    c.Compare m none none = (some NewNode, none) ∧
      NewNode.status = .Equal ∧ NewNode.children = [] := by
  refine ⟨?_, rfl, rfl⟩
  simp [Comparator.Compare]

/-- C7, as stated, fails: the comparator made by `NewComparator` does not have
`RespectSliceOrder` enabled. -/
theorem NewComparator_respectSliceOrder_not_enabled :
    ¬ (NewComparator.RespectSliceOrder = true) := by
  decide

/-- C7, amended: the package-level `Compare` runs the comparator made by
`NewComparator`, whose `RespectSliceOrder` is false. -/
theorem Compare_default_sliceOrder :
    NewComparator.RespectSliceOrder = false ∧
      ∀ (m : Methods) (a b : Any), Compare m a b = NewComparator.Compare m a b := by
  exact ⟨rfl, fun _ _ _ => rfl⟩

theorem find?_eq_head?_filter {α : Type} (p : α → Bool) (l : List α) :
    l.find? p = (l.filter p).head? := by
  induction l with
  | nil => rfl
  | cons x xs ih =>
    by_cases hx : p x = true
    · rw [List.find?_cons_of_pos _ hx, List.filter_cons_of_pos hx]; rfl
    · rw [List.find?_cons_of_neg _ hx, List.filter_cons_of_neg hx]; exact ih

/-- When at most one element satisfies `p`, the first match does not depend on
the order of the list. -/
theorem find?_perm_of_unique {α : Type} (p : α → Bool) {l l2 : List α}
    (hperm : l2.Perm l) (hone : (l.filter p).length ≤ 1) : l2.find? p = l.find? p := by
  rw [find?_eq_head?_filter, find?_eq_head?_filter]
  have hf : (l2.filter p).Perm (l.filter p) := hperm.filter p
  match hl : l.filter p with
  | [] => rw [hl] at hf; rw [hf.eq_nil]
  | [x] => rw [hl] at hf; rw [List.perm_singleton.mp hf]
  | x :: y :: rest => rw [hl] at hone; simp at hone

theorem getCompareFunc_eq_firstMatch (c : Comparator) (a b : Value) :
    c.getCompareFunc a b = firstMatch dispatchRules a b := by
  unfold Comparator.getCompareFunc firstMatch dispatchRules ruleMatches
  simp only [List.find?]
  repeat' split
  all_goals simp_all

theorem matching_rules_le_one (a b : Value) (h : a.Kind ≠ .Invalid ∨ b.Kind ≠ .Invalid) :
    (dispatchRules.filter (ruleMatches a b)).length ≤ 1 := by
  unfold dispatchRules ruleMatches
  simp only [List.filter, areOfKind_pair]
  revert h
  generalize a.Kind = ka
  generalize b.Kind = kb
  cases ka <;> cases kb <;> decide

/-- C10: when at least one side is not absent, at most one rule of the
dispatcher matches, `getCompareFunc` is the first match over the rules in the
order of the switch, and the first match over any reordering of the rules
selects the same comparator (or none). -/
theorem dispatch_order_irrelevant (c : Comparator) (a b : Value)
    (h : a.Kind ≠ .Invalid ∨ b.Kind ≠ .Invalid) :
    (dispatchRules.filter (ruleMatches a b)).length ≤ 1 ∧
    c.getCompareFunc a b = firstMatch dispatchRules a b ∧
    ∀ rules : List (Kind × CmpFunc), rules.Perm dispatchRules →
      firstMatch rules a b = c.getCompareFunc a b := by
  have hone := matching_rules_le_one a b h
  refine ⟨hone, getCompareFunc_eq_firstMatch c a b, fun rules hperm => ?_⟩
  rw [getCompareFunc_eq_firstMatch]
  unfold firstMatch
  rw [find?_perm_of_unique (ruleMatches a b) hperm hone]

theorem dispatch_order_irrelevant_witness :
    firstMatch dispatchRules.reverse (.int 1) .invalid =
      Comparator.getCompareFunc NewComparator (.int 1) .invalid :=
  (dispatch_order_irrelevant NewComparator (.int 1) .invalid (Or.inl (by decide))).2.2
    dispatchRules.reverse (List.reverse_perm dispatchRules)

/-! ## Tag resolution -/

theorem splitRunes_sepFree (sep : Char) (p : List Char) (hp : sep ∉ p) :
    strings.splitRunes sep p = [p] := by
  induction p with
  | nil => rfl
  | cons r rs ih =>
    have hr : r ≠ sep := fun h => hp (h ▸ List.mem_cons_self _ _)
    have hrs : sep ∉ rs := fun h => hp (List.mem_cons_of_mem _ h)
    simp [strings.splitRunes, hr, ih hrs]

theorem splitRunes_append_sep (sep : Char) (p rest : List Char) (hp : sep ∉ p) :
    strings.splitRunes sep (p ++ sep :: rest) = p :: strings.splitRunes sep rest := by
  induction p with
  | nil => simp [strings.splitRunes]
  | cons r rs ih =>
    have hr : r ≠ sep := fun h => hp (h ▸ List.mem_cons_self _ _)
    have hrs : sep ∉ rs := fun h => hp (List.mem_cons_of_mem _ h)
    simp [strings.splitRunes, hr, ih hrs]

/-- Splitting the join of separator-free pieces gives the pieces back. -/
theorem splitRunes_joinRunes (sep : Char) (p : List Char) (ps : List (List Char))
    (hall : ∀ q ∈ p :: ps, sep ∉ q) :
    strings.splitRunes sep (joinRunes sep (p :: ps)) = p :: ps := by
  induction ps generalizing p with
  | nil => exact splitRunes_sepFree sep p (hall p (List.mem_cons_self _ _))
  | cons q qs ih =>
    have hp : sep ∉ p := hall p (List.mem_cons_self _ _)
    have hrest : ∀ x ∈ q :: qs, sep ∉ x := fun x hx => hall x (List.mem_cons_of_mem _ hx)
    simp only [joinRunes]
    rw [splitRunes_append_sep sep p _ hp, ih q hrest]

theorem Split_tagText (name : String) (options : List String)
    (hname : ',' ∉ name.data) (hopts : ∀ o ∈ options, ',' ∉ o.data) :
    strings.Split (tagText name options) ',' = name :: options := by
  unfold strings.Split tagText
  rw [splitRunes_joinRunes]
  · have hid : (String.mk ∘ String.data) = id := funext fun _ => rfl
    simp [hid]
  · intro q hq
    rcases List.mem_cons.mp hq with rfl | hq
    · exact hname
    · obtain ⟨o, ho, rfl⟩ := List.mem_map.mp hq
      exact hopts o ho

theorem hasTagOption_tagText (tagName : String) (field : StructField) (option name : String)
    (options : List String) (hname : ',' ∉ name.data) (hopts : ∀ o ∈ options, ',' ∉ o.data)
    (htag : field.Tag.Get tagName = tagText name options) :
    hasTagOption tagName field option = true ↔
      ∃ o ∈ options, strings.ToLower (strings.TrimSpace o) = option := by
  unfold hasTagOption
  simp only [htag, Split_tagText name options hname hopts]
  cases options with
  | nil => simp
  | cons o os => simp

/-- What `hasTagOption` computes for an annotation `name,option,...,option`:
some option segment, trimmed and put in lower case, is the given option; for an
option that is its own lower-case form this is equality of the trimmed segment
and the option compared case-insensitively. -/
theorem hasTagOption_iff (tagName : String) (field : StructField) (option name : String)
    (options : List String) (hname : ',' ∉ name.data) (hopts : ∀ o ∈ options, ',' ∉ o.data)
    (htag : field.Tag.Get tagName = tagText name options) :
    (hasTagOption tagName field option = true ↔
      ∃ o ∈ options, strings.ToLower (strings.TrimSpace o) = option) ∧
    (strings.ToLower option = option →
      (hasTagOption tagName field option = true ↔
        ∃ o ∈ options, equalIgnoreCase (strings.TrimSpace o) option)) := by
  have hiff := hasTagOption_tagText tagName field option name options hname hopts htag
  refine ⟨hiff, fun hlow => ?_⟩
  rw [hiff]
  unfold equalIgnoreCase
  rw [hlow]

theorem hasTagOption_iff_witness :
    hasTagOption "cmp" sampleIdField "id" = true ↔
      ∃ o ∈ ["id"], equalIgnoreCase (strings.TrimSpace o) "id" :=
  (hasTagOption_iff "cmp" sampleIdField "id" "x" ["id"] (by decide) (by decide) (by decide)).2
    (by decide)

theorem splitRunes_ne_nil (sep : Char) (s : List Char) : strings.splitRunes sep s ≠ [] := by
  cases s with
  | nil => simp [strings.splitRunes]
  | cons r rs =>
    unfold strings.splitRunes
    split
    · simp
    · split <;> simp

theorem joinRunes_cons_cons (sep r : Char) (p : List Char) (ps : List (List Char)) :
    joinRunes sep ((r :: p) :: ps) = r :: joinRunes sep (p :: ps) := by
  cases ps <;> simp [joinRunes]

theorem splitRunes_spec (sep : Char) (s : List Char) :
    (∀ q ∈ strings.splitRunes sep s, sep ∉ q) ∧ joinRunes sep (strings.splitRunes sep s) = s := by
  induction s with
  | nil => simp [strings.splitRunes, joinRunes]
  | cons r rs ih =>
    obtain ⟨hfree, hjoin⟩ := ih
    by_cases hr : r = sep
    · cases hsplit : strings.splitRunes sep rs with
      | nil => exact absurd hsplit (splitRunes_ne_nil sep rs)
      | cons q qs =>
        rw [hsplit] at hfree hjoin
        simp only [strings.splitRunes, hr, if_true, hsplit]
        refine ⟨fun x hx => ?_, ?_⟩
        · rcases List.mem_cons.mp hx with rfl | hx
          · simp
          · exact hfree x hx
        · simp [joinRunes, hjoin]
    · cases hsplit : strings.splitRunes sep rs with
      | nil => exact absurd hsplit (splitRunes_ne_nil sep rs)
      | cons q qs =>
        rw [hsplit] at hfree hjoin
        simp only [strings.splitRunes, hr, if_false, hsplit]
        refine ⟨fun x hx => ?_, ?_⟩
        · rcases List.mem_cons.mp hx with rfl | hx
          · have hq := hfree q (List.mem_cons_self _ _)
            intro hmem
            rcases List.mem_cons.mp hmem with h | h
            · exact hr h.symm
            · exact hq h
          · exact hfree x (List.mem_cons_of_mem _ hx)
        · rw [joinRunes_cons_cons, hjoin]

/-- Every annotation text is a name followed by comma-free option segments. -/
theorem tagText_exists (s : String) :
    ∃ (name : String) (options : List String),
      ',' ∉ name.data ∧ (∀ o ∈ options, ',' ∉ o.data) ∧ s = tagText name options := by
  obtain ⟨hfree, hjoin⟩ := splitRunes_spec ',' s.data
  cases hsplit : strings.splitRunes ',' s.data with
  | nil => exact absurd hsplit (splitRunes_ne_nil _ _)
  | cons q qs =>
    rw [hsplit] at hfree hjoin
    refine ⟨String.mk q, qs.map String.mk, hfree q (List.mem_cons_self _ _), ?_, ?_⟩
    · intro o ho
      obtain ⟨x, hx, rfl⟩ := List.mem_map.mp ho
      exact hfree x (List.mem_cons_of_mem _ hx)
    · have hid : (String.data ∘ String.mk) = id := funext fun _ => rfl
      unfold tagText
      simp only [List.map_map, hid, List.map_id, hjoin]

theorem SplitN_two_head (s : String) :
    (strings.SplitN s ',' 2).headD "" = textBeforeComma s := by
  unfold strings.SplitN textBeforeComma strings.splitNRunes
  rw [List.span_eq_take_drop]
  cases hdrop : List.dropWhile (fun r => r != ',') s.data <;> simp [hdrop]

theorem SplitN_two_ne_nil (s : String) : strings.SplitN s ',' 2 ≠ [] := by
  unfold strings.SplitN strings.splitNRunes
  rw [List.span_eq_take_drop]
  cases hdrop : List.dropWhile (fun r => r != ',') s.data <;> simp [hdrop]

theorem len_pos_iff (s : String) : len s > 0 ↔ s ≠ "" := by
  obtain ⟨cs⟩ := s
  cases cs with
  | nil => simp [len]; rfl
  | cons r rs =>
    have hpos := Char.utf8Size_pos r
    constructor
    · intro _ h
      exact absurd (congrArg String.data h) (by simp)
    · intro _
      simp only [len, String.utf8ByteSize_mk, String.utf8Len_cons]
      omega

theorem find?_nonempty_cons_pos (x : String) (xs : List String) (h : x ≠ "") :
    (x :: xs).find? (fun s => s != "") = some x := by
  have hb : (x != "") = true := bne_iff_ne.mpr h
  simp [List.find?, hb]

theorem find?_nonempty_cons_neg (x : String) (xs : List String) (h : x = "") :
    (x :: xs).find? (fun s => s != "") = xs.find? (fun s => s != "") := by
  simp [List.find?, h]

theorem tagName_loop_eq (field : StructField) (tags : List String) :
    tagName.loop field tags =
      ((tags.map (fun t => textBeforeComma (field.Tag.Get t))).find? (fun s => s != "")).getD "" := by
  induction tags with
  | nil => rfl
  | cons t ts ih =>
    unfold tagName.loop
    simp only [SplitN_two_head, List.map_cons]
    by_cases hne : textBeforeComma (field.Tag.Get t) = ""
    · have hlen : ¬ len (textBeforeComma (field.Tag.Get t)) > 0 := fun h =>
        (len_pos_iff _).mp h hne
      rw [if_neg hlen, find?_nonempty_cons_neg _ _ hne]
      exact ih
    · have hlen : len (textBeforeComma (field.Tag.Get t)) > 0 := (len_pos_iff _).mpr hne
      rw [if_pos hlen, find?_nonempty_cons_pos _ _ hne]
      rfl

theorem first_nonempty_eq_empty_iff (l : List String) :
    (l.find? (fun s => s != "")).getD "" = "" ↔ ∀ s ∈ l, s = "" := by
  induction l with
  | nil => simp
  | cons x xs ih =>
    by_cases hx : x = ""
    · rw [find?_nonempty_cons_neg _ _ hx, ih]
      simp [hx]
    · rw [find?_nonempty_cons_pos _ _ hx]
      simp [hx]

/-- C4: `tagName` is the text before the first comma of the first annotation,
in the order primary key, `json`, `yaml`, for which that text is not empty;
it is the empty text exactly when that text is empty for all three. -/
theorem tagName_first_nonempty (key : String) (field : StructField) :
    tagName key field =
      (([key, "json", "yaml"].map (fun t => textBeforeComma (field.Tag.Get t))).find?
        (fun s => s != "")).getD "" ∧
    (tagName key field = "" ↔
      ∀ t ∈ [key, "json", "yaml"], textBeforeComma (field.Tag.Get t) = "") := by
  have heq : tagName key field =
      (([key, "json", "yaml"].map (fun t => textBeforeComma (field.Tag.Get t))).find?
        (fun s => s != "")).getD "" := by
    unfold tagName
    exact tagName_loop_eq field _
  refine ⟨heq, ?_⟩
  rw [heq, first_nonempty_eq_empty_iff]
  simp

/-- A primary annotation `,id` names nothing: the name comes from the
fallback keys. -/
theorem tagName_falls_through : tagName "cmp" sampleUnnamedField = "y" := by
  decide

/-! ## Sequence mode selection -/

theorem tagOptionId_loop_isSome (tagName : String) (fields : List (StructField × Value))
    (h : (tagOptionId.loop tagName fields).isSome = true) :
    ∃ fv ∈ fields, hasTagOption tagName fv.1 TAG_OPTION_ID = true := by
  induction fields with
  | nil => simp [tagOptionId.loop] at h
  | cons fv rest ih =>
    obtain ⟨field, value⟩ := fv
    by_cases hopt : hasTagOption tagName field TAG_OPTION_ID = true
    · exact ⟨(field, value), List.mem_cons_self _ _, hopt⟩
    · simp only [tagOptionId.loop, hopt] at h
      obtain ⟨fv, hmem, hfv⟩ := ih h
      exact ⟨fv, List.mem_cons_of_mem _ hmem, hfv⟩

theorem tagOptionId_isSome (tagName : String) (v : Value)
    (h : (tagOptionId tagName v).isSome = true) :
    v.Kind = .Struct ∧ ∃ fv ∈ v.fields, hasTagOption tagName fv.1 TAG_OPTION_ID = true := by
  unfold tagOptionId at h
  by_cases hk : v.Kind = .Struct
  · simp only [hk, ne_eq, not_true_eq_false, if_false] at h
    exact ⟨hk, tagOptionId_loop_isSome tagName v.fields h⟩
  · simp [hk] at h

/-- On two slices `areComparativeById` does not panic, and its answer is
decided by the first element of each side. -/
theorem areComparativeById_slice (c : Comparator) (as bs : List Value) :
    c.areComparativeById (.slice as) (.slice bs) =
      some (firstCarriesId c as || firstCarriesId c bs) := by
  cases as with
  | nil =>
    cases bs with
    | nil => rfl
    | cons y ys =>
      by_cases hk : (getDeepValue y).Kind = .Struct <;>
        cases hid : (tagOptionId c.TagName (getDeepValue y)).isSome <;>
        simp [Comparator.areComparativeById, Value.Len, Value.Index, firstCarriesId, hk, hid]
  | cons x xs =>
    cases bs with
    | nil =>
      by_cases hk : (getDeepValue x).Kind = .Struct <;>
        cases hid : (tagOptionId c.TagName (getDeepValue x)).isSome <;>
        simp [Comparator.areComparativeById, Value.Len, Value.Index, firstCarriesId, hk, hid]
    | cons y ys =>
      by_cases hk : (getDeepValue x).Kind = .Struct <;>
        cases hid : (tagOptionId c.TagName (getDeepValue x)).isSome <;>
        by_cases hk2 : (getDeepValue y).Kind = .Struct <;>
        cases hid2 : (tagOptionId c.TagName (getDeepValue y)).isSome <;>
        simp [Comparator.areComparativeById, Value.Len, Value.Index, firstCarriesId, hk, hid,
          hk2, hid2]

theorem firstCarriesId_true (c : Comparator) (xs : List Value)
    (h : firstCarriesId c xs = true) :
    ∃ first rest, xs = first :: rest ∧ (getDeepValue first).Kind = .Struct ∧
      ∃ fv ∈ (getDeepValue first).fields, hasTagOption c.TagName fv.1 TAG_OPTION_ID = true := by
  cases xs with
  | nil => simp [firstCarriesId] at h
  | cons x rest =>
    simp only [firstCarriesId, Bool.and_eq_true, decide_eq_true_eq] at h
    exact ⟨x, rest, rfl, h.1, (tagOptionId_isSome c.TagName _ h.2).2⟩

/-- C8: on two sequences `areComparativeById` returns a result, and it returns
true only if some side is non-empty and the first element of that side,
resolved by `getDeepValue`, is a struct with a field whose annotation under
the primary tag key has the id option; for two empty sequences it returns
false. -/
theorem areComparativeById_true_only_if (c : Comparator) (as bs : List Value) :
    (∃ r, c.areComparativeById (.slice as) (.slice bs) = some r) ∧
    (c.areComparativeById (.slice as) (.slice bs) = some true →
      ∃ side ∈ [as, bs], ∃ first rest, side = first :: rest ∧
        (getDeepValue first).Kind = .Struct ∧
        ∃ fv ∈ (getDeepValue first).fields,
          hasTagOption c.TagName fv.1 TAG_OPTION_ID = true) ∧
    (as = [] → bs = [] → c.areComparativeById (.slice as) (.slice bs) = some false) := by
  refine ⟨⟨_, areComparativeById_slice c as bs⟩, fun h => ?_, fun ha hb => ?_⟩
  · rw [areComparativeById_slice] at h
    have h2 : (firstCarriesId c as || firstCarriesId c bs) = true := Option.some.inj h
    rcases Bool.or_eq_true_iff.mp h2 with h3 | h3
    · exact ⟨as, by simp, firstCarriesId_true c as h3⟩
    · exact ⟨bs, by simp, firstCarriesId_true c bs h3⟩
  · subst ha hb
    rfl

/-- C9: two pairs of sequences that agree side by side on being empty or on
their first element get the same answer from `areComparativeById`, whatever
their other elements and lengths are. -/
theorem areComparativeById_first_only (c : Comparator) (as as2 bs bs2 : List Value)
    (ha : (as = [] ∧ as2 = []) ∨ ∃ x r r2, as = x :: r ∧ as2 = x :: r2)
    (hb : (bs = [] ∧ bs2 = []) ∨ ∃ y r r2, bs = y :: r ∧ bs2 = y :: r2) :
    c.areComparativeById (.slice as) (.slice bs) =
      c.areComparativeById (.slice as2) (.slice bs2) := by
  have key : ∀ xs xs2 : List Value,
      ((xs = [] ∧ xs2 = []) ∨ ∃ x r r2, xs = x :: r ∧ xs2 = x :: r2) →
      firstCarriesId c xs = firstCarriesId c xs2 := by
    intro xs xs2 h
    rcases h with ⟨rfl, rfl⟩ | ⟨x, r, r2, rfl, rfl⟩ <;> rfl
  rw [areComparativeById_slice, areComparativeById_slice, key as as2 ha, key bs bs2 hb]

theorem areComparativeById_first_only_witness :
    Comparator.areComparativeById NewComparator
        (.slice [.pointer (.struct [(sampleIdField, .int 1)]), .int 2]) (.slice []) =
      Comparator.areComparativeById NewComparator
        (.slice [.pointer (.struct [(sampleIdField, .int 1)])]) (.slice []) :=
  areComparativeById_first_only NewComparator _ _ _ _
    (Or.inr ⟨_, _, _, rfl, rfl⟩) (Or.inl ⟨rfl, rfl⟩)

/-- An identity-marked first element behind a pointer selects the identity
mode. -/
theorem areComparativeById_sample :
    Comparator.areComparativeById NewComparator
        (.slice []) (.slice [.pointer (.struct [(sampleIdField, .int 1)])]) = some true := by
  rfl

/-! ## Options and identity fields -/

theorem Split_no_comma (s : String) (h : ',' ∉ s.data) : strings.Split s ',' = [s] := by
  unfold strings.Split
  rw [splitRunes_sepFree ',' s.data h]
  rfl

/-- C11: for an annotation text without a comma `hasTagOption` is false for
every option, also when the text itself is the option: the first segment is
the name and never an option. -/
theorem hasTagOption_no_comma (tagName : String) (field : StructField) (option : String)
    (h : ',' ∉ (field.Tag.Get tagName).data) :
    hasTagOption tagName field option = false ∧
      hasTagOption tagName field (field.Tag.Get tagName) = false := by
  have key : ∀ opt : String, hasTagOption tagName field opt = false := by
    intro opt
    unfold hasTagOption
    simp [Split_no_comma _ h]
  exact ⟨key option, key _⟩

theorem hasTagOption_no_comma_witness :
    tagName "cmp" sampleNameOnlyField = "id" ∧
      hasTagOption "cmp" sampleNameOnlyField "id" = false :=
  ⟨by decide, (hasTagOption_no_comma "cmp" sampleNameOnlyField "id" (by decide)).1⟩

theorem tagOptionId_loop_none (tagName : String) (fields : List (StructField × Value))
    (h : ∀ fv ∈ fields, hasTagOption tagName fv.1 TAG_OPTION_ID = false) :
    tagOptionId.loop tagName fields = none := by
  induction fields with
  | nil => rfl
  | cons fv rest ih =>
    obtain ⟨field, value⟩ := fv
    have hfv : hasTagOption tagName field TAG_OPTION_ID = false :=
      h (field, value) (List.mem_cons_self _ _)
    simp only [tagOptionId.loop, hfv]
    exact ih fun x hx => h x (List.mem_cons_of_mem _ hx)

theorem tagOptionId_loop_first (tagName : String) (before after : List (StructField × Value))
    (field : StructField) (value : Value)
    (hbefore : ∀ fv ∈ before, hasTagOption tagName fv.1 TAG_OPTION_ID = false)
    (hfield : hasTagOption tagName field TAG_OPTION_ID = true) :
    tagOptionId.loop tagName (before ++ (field, value) :: after) = exportInterface value := by
  induction before with
  | nil => simp [tagOptionId.loop, hfield]
  | cons fv rest ih =>
    obtain ⟨f, v⟩ := fv
    have hfv : hasTagOption tagName f TAG_OPTION_ID = false :=
      hbefore (f, v) (List.mem_cons_self _ _)
    simp only [List.cons_append, tagOptionId.loop, hfv]
    exact ih fun x hx => hbefore x (List.mem_cons_of_mem _ hx)

/-- C12: `tagOptionId` is nil for a value that is not a struct and for a
struct none of whose fields has the id option; for a struct whose first field
with the id option, in declaration order, has the value `value`, it is
`exportInterface value`, whatever fields follow. -/
theorem tagOptionId_first_id_field (tagName : String) (v : Value) :
    (v.Kind ≠ .Struct → tagOptionId tagName v = none) ∧
    ((∀ fv ∈ v.fields, hasTagOption tagName fv.1 TAG_OPTION_ID = false) →
      tagOptionId tagName v = none) ∧
    (∀ (before after : List (StructField × Value)) (field : StructField) (value : Value),
      v = .struct (before ++ (field, value) :: after) →
      (∀ fv ∈ before, hasTagOption tagName fv.1 TAG_OPTION_ID = false) →
      hasTagOption tagName field TAG_OPTION_ID = true →
      tagOptionId tagName v = exportInterface value) := by
  refine ⟨fun hk => ?_, fun hnone => ?_, fun before after field value hv hbefore hfield => ?_⟩
  · simp [tagOptionId, hk]
  · unfold tagOptionId
    split
    · rfl
    · exact tagOptionId_loop_none tagName v.fields hnone
  · subst hv
    simp only [tagOptionId, Value.Kind, ne_eq, not_true_eq_false, if_false, Value.fields]
    exact tagOptionId_loop_first tagName before after field value hbefore hfield

/-- Of two fields with the id option the first one gives the identity. -/
theorem tagOptionId_two_id_fields :
    tagOptionId "cmp"
        (.struct [(sampleNameOnlyField, .int 0), (sampleIdField, .int 1), (sampleIdField, .int 2)]) =
      some (.int 1) := by
  rfl

/-- C13: the package-level `Compare` returns what `Comparator.Compare` returns
for the configuration made by `NewComparator`, which has `TagName` equal to
`cmp` and both flags false. -/
theorem Compare_eq_default_Comparator (m : Methods) (a b : Any) :
    Compare m a b = NewComparator.Compare m a b ∧
      NewComparator =
        { TagName := "cmp", RespectSliceOrder := false, SkipPrivateFields := false } ∧
      Compare m a b =
        Comparator.Compare m
          { TagName := "cmp", RespectSliceOrder := false, SkipPrivateFields := false } a b := by
  exact ⟨rfl, rfl, rfl⟩

theorem Get_eq_of_annotationsUnder (tag tag2 : StructTag) (key : String)
    (h : annotationsUnder tag key = annotationsUnder tag2 key) : tag.Get key = tag2.Get key := by
  unfold annotationsUnder at h
  unfold StructTag.Get
  rw [find?_eq_head?_filter, find?_eq_head?_filter, h]

theorem Get_of_no_annotation (tag : StructTag) (key : String)
    (h : annotationsUnder tag key = []) : tag.Get key = "" := by
  unfold annotationsUnder at h
  unfold StructTag.Get
  rw [find?_eq_head?_filter, h]
  rfl

theorem hasTagOption_of_Get_eq (tagName : String) (field field2 : StructField) (option : String)
    (h : field.Tag.Get tagName = field2.Tag.Get tagName) :
    hasTagOption tagName field option = hasTagOption tagName field2 option := by
  unfold hasTagOption
  rw [h]

/-- C14: `hasTagOption` reads the annotation under the given tag key only: two
fields whose annotations under that key are the same get the same answer,
whatever they hold under other keys.  A field with nothing under `cmp` and
`x,id` under `json` is named `x` by `tagName` and has no option under `cmp`,
so `tagOptionId` finds no identity in a struct made of such a field. -/
theorem hasTagOption_primary_key_only (tagName : String) (field field2 : StructField)
    (option : String)
    (h : annotationsUnder field.Tag tagName = annotationsUnder field2.Tag tagName) :
    hasTagOption tagName field option = hasTagOption tagName field2 option ∧
    ∀ (g : StructField) (value : Value),
      annotationsUnder g.Tag "cmp" = [] → g.Tag.Get "json" = "x,id" →
        Cmp.tagName "cmp" g = "x" ∧ (∀ opt, hasTagOption "cmp" g opt = false) ∧
          tagOptionId "cmp" (.struct [(g, value)]) = none := by
  refine ⟨hasTagOption_of_Get_eq tagName field field2 option
    (Get_eq_of_annotationsUnder _ _ _ h), fun g value hcmp hjson => ?_⟩
  have hget : g.Tag.Get "cmp" = "" := Get_of_no_annotation _ _ hcmp
  have hopt : ∀ opt, hasTagOption "cmp" g opt = false := by
    intro opt
    unfold hasTagOption
    rw [hget]
    rfl
  refine ⟨?_, hopt, ?_⟩
  · unfold Cmp.tagName
    rw [tagName_loop_eq]
    simp only [fieldNameTags, List.singleton_append, List.map_cons, hget, hjson]
    rfl
  · exact tagOptionId_loop_none "cmp" [(g, value)] fun fv hfv => by
      rw [List.mem_singleton.mp hfv]
      exact hopt _

theorem hasTagOption_primary_key_only_witness :
    hasTagOption "cmp" sampleIdField "id" =
      hasTagOption "cmp" { Name := "X", Tag := [("json", "a,b"), ("cmp", "x,id"), ("yaml", "id")] }
        "id" :=
  (hasTagOption_primary_key_only "cmp" sampleIdField
    { Name := "X", Tag := [("json", "a,b"), ("cmp", "x,id"), ("yaml", "id")] } "id"
    (by decide)).1

/-- A field annotated only `json:"x,id"` is named but not identity-marked
under the primary key `cmp`. -/
theorem sampleJsonIdField_not_marked :
    tagName "cmp" sampleJsonIdField = "x" ∧
      tagOptionId "cmp" (.struct [(sampleJsonIdField, .int 1)]) = none := by
  exact ⟨by decide, rfl⟩

/-! ## Symmetry and the doubly absent pair -/

theorem areOfKind_pair_symm (a b : Value) (k : Kind) :
    areOfKind a b [.Invalid, k] = areOfKind b a [.Invalid, k] := by
  rw [areOfKind_pair, areOfKind_pair, Bool.and_comm]

theorem getCompareFunc_comm (c : Comparator) (a b : Value) :
    c.getCompareFunc a b = c.getCompareFunc b a := by
  unfold Comparator.getCompareFunc
  simp only [areOfKind_pair_symm a b]

/-- The method `compare` fails by itself, whatever the comparators are, exactly
when no comparator is selected. -/
theorem compare_fails_iff_none (c : Comparator) (parent : DiffNode) (key : Any)
    (a b : Value) :
    (∀ m : Methods, c.compare m parent key a b =
        (parent, some (NewTypeMismatchError a.Kind b.Kind))) ↔
      c.getCompareFunc a b = none := by
  constructor
  · intro h
    cases hsel : c.getCompareFunc a b with
    | none => rfl
    | some f =>
      have := h Methods.silent
      simp [Comparator.compare, hsel, Methods.silent] at this
  · intro h m
    simp [Comparator.compare, h]

/-- C15: dispatch is symmetric: `getCompareFunc` selects the same comparator,
or none, for `(a, b)` and `(b, a)`, so `compare` fails by itself on `(a, b)`
with the TypeMismatch of `(a.Kind, b.Kind)` exactly when it fails on `(b, a)`
with the TypeMismatch of `(b.Kind, a.Kind)`. -/
theorem getCompareFunc_symmetric (c : Comparator) (parent : DiffNode) (key : Any)
    (a b : Value) :
    c.getCompareFunc a b = c.getCompareFunc b a ∧
    (c.getCompareFunc a b = none ↔ c.getCompareFunc b a = none) ∧
    ((∀ m : Methods, c.compare m parent key a b =
        (parent, some (NewTypeMismatchError a.Kind b.Kind))) ↔
      (∀ m : Methods, c.compare m parent key b a =
        (parent, some (NewTypeMismatchError b.Kind a.Kind)))) := by
  have hcomm := getCompareFunc_comm c a b
  refine ⟨hcomm, by rw [hcomm], ?_⟩
  rw [compare_fails_iff_none, compare_fails_iff_none, hcomm]

/-- Swapping an integer and a text swaps the kinds of the error. -/
theorem compare_swap_sample :
    (Comparator.compare Methods.silent NewComparator NewNode none (.int 1) (.string "x")).2 =
        some (.TypeMismatch .Int .String) ∧
      (Comparator.compare Methods.silent NewComparator NewNode none (.string "x") (.int 1)).2 =
        some (.TypeMismatch .String .Int) := by
  exact ⟨rfl, rfl⟩

/-- C16: when both values are absent every one of the eight rules matches and
`getCompareFunc` selects `cmpBool`, the first rule; the dispatch does not fail
and `compare` returns what `cmpBool` returns. -/
theorem getCompareFunc_both_absent (c : Comparator) (a b : Value)
    (ha : a.Kind = .Invalid) (hb : b.Kind = .Invalid) :
    (∀ rule ∈ dispatchRules, ruleMatches a b rule = true) ∧
    (dispatchRules.filter (ruleMatches a b)).length = 8 ∧
    c.getCompareFunc a b = some .cmpBool ∧
    ¬ dispatchFails a.Kind b.Kind ∧
    ∀ (m : Methods) (parent : DiffNode) (key : Any),
      c.compare m parent key a b = m.call .cmpBool c parent key a b := by
  have hmatch : ∀ rule : Kind × CmpFunc, ruleMatches a b rule = true := by
    intro rule
    unfold ruleMatches
    rw [areOfKind_pair]
    simp [ha, hb]
  have hsel : c.getCompareFunc a b = some .cmpBool := by
    unfold Comparator.getCompareFunc
    simp [areOfKind_pair, ha, hb]
  refine ⟨fun rule _ => hmatch rule, ?_, hsel, ?_, fun m parent key => ?_⟩
  · rw [List.filter_eq_self.mpr fun rule _ => hmatch rule]
    rfl
  · rw [ha, hb]
    decide
  · simp [Comparator.compare, hsel]

theorem getCompareFunc_both_absent_witness :
    Comparator.getCompareFunc NewComparator .invalid .invalid = some .cmpBool :=
  (getCompareFunc_both_absent NewComparator .invalid .invalid rfl rfl).2.2.1

/-! ## The case table outside ASCII -/

/-- The case table maps the dotted capital I to `i`, the Kelvin sign to `k`
and the capital E with acute to its small letter. -/
theorem ToLower_samples :
    unicode.ToLower 'İ' = 'i' ∧ unicode.ToLower 'K' = 'k' ∧ unicode.ToLower 'É' = 'é' ∧
      strings.ToLower "ÀÉÎ Σ Ж" = "àéî σ ж" := by
  decide

/-- An option written ` İD ` is the id option. -/
theorem hasTagOption_dotted_capital : hasTagOption "cmp" sampleDottedIdField "id" = true := by
  decide

end Cmp
